import Mathlib

/-!
Verification of the chartpaper backend core against its specification.

The development shallowly embeds the Go source:
* the manifest fact extractor `extractManifestMetadata` (backend/pkg/spec.go),
* the versioned catalog store `storeChartInDB` and its sqlc queries
  (backend/pkg/spec.go, backend/db/queries/charts.sql),
* the version switch `switchChartVersion` and the dependency resolver
  `fetchChartDependenciesAdvanced` (the main-package variant of the backend).

Strings are modelled as `List Char`; the Go `strings` package functions used by
the source are re-implemented below with matching semantics.
-/

namespace ChartPaper

/-- Go `unicode.IsSpace` (the code points Go's `strings.TrimSpace` strips). -/
def goIsSpace (c : Char) : Bool :=
  c.val = 9 || c.val = 10 || c.val = 11 || c.val = 12 || c.val = 13 || c.val = 32 ||
  c.val = 0x85 || c.val = 0xA0 || c.val = 0x1680 ||
  (0x2000 ≤ c.val && c.val ≤ 0x200A) ||
  c.val = 0x2028 || c.val = 0x2029 || c.val = 0x202F || c.val = 0x205F || c.val = 0x3000

/-- First occurrence of `sep` in a string: returns the part strictly before the
first occurrence and the part strictly after it. `none` when `sep` does not
occur (always `none` on the empty string; `sep` is never empty in this code). -/
def splitFirst (sep : List Char) : List Char → Option (List Char × List Char)
  | [] => none
  | c :: cs =>
    if sep.isPrefixOf (c :: cs) then some ([], (c :: cs).drop sep.length)
    else
      match splitFirst sep cs with
      | none => none
      | some (pre, post) => some (c :: pre, post)

/-- Fuel-driven worker for `splitOnSep`; fuel `s.length` always suffices
because each recursive step strictly shortens the string. -/
def splitOnSepAux (sep : List Char) : Nat → List Char → List (List Char)
  | 0, s => [s]
  | Nat.succ fuel, s =>
    match splitFirst sep s with
    | none => [s]
    | some (pre, post) => pre :: splitOnSepAux sep fuel post

/-- Go `strings.Split(s, sep)` for non-empty `sep`. -/
def splitOnSep (s sep : List Char) : List (List Char) :=
  splitOnSepAux sep s.length s

/-- Go `strings.Contains(s, sub)` for non-empty `sub`. -/
def containsSub (s sub : List Char) : Bool :=
  (splitFirst sub s).isSome

/-- Go `strings.HasPrefix(s, pre)`. -/
def startsWith (s pre : List Char) : Bool :=
  pre.isPrefixOf s

/-- Drop the longest suffix of characters satisfying `p`. -/
def dropTrailing (p : Char → Bool) (s : List Char) : List Char :=
  (s.reverse.dropWhile p).reverse

/-- Go `strings.TrimSpace`. -/
def trimSpace (s : List Char) : List Char :=
  dropTrailing goIsSpace (s.dropWhile goIsSpace)

/-- Membership in the cutset `"\x22'"` used by the source's quote trimming. -/
def isQuoteChar (c : Char) : Bool :=
  c.val = 34 || c.val = 39

/-- Go `strings.Trim(s, "\x22'")`: strip leading and trailing quote characters. -/
def trimQuotes (s : List Char) : List Char :=
  dropTrailing isQuoteChar (s.dropWhile isQuoteChar)

/-- Go `strings.ToLower`, restricted to ASCII (the only case arising in the
tags the source lower-cases; `Char.toLower` maps `A`-`Z` to `a`-`z`). -/
def asciiToLower (s : List Char) : List Char :=
  s.map Char.toLower

/-- The fact set produced by the manifest fact extractor
(`ManifestMetadata` in backend/pkg/spec.go). -/
structure ManifestMetadata where
  imageTag : String
  canaryTag : String
  containerImages : List String
  ingressPaths : List String
  servicePorts : List String
deriving Repr, DecidableEq

/-- The all-defaults fact set the extractor starts from. -/
def initMetadata : ManifestMetadata :=
  { imageTag := "N/A", canaryTag := "N/A",
    containerImages := [], ingressPaths := [], servicePorts := [] }

/-- Per-document scanning state of `extractManifestMetadata`:
the accumulated fact set plus `currentKind`, `inSpec`, `inIngress`,
`inService` (reset for each document). -/
structure ScanState where
  meta : ManifestMetadata
  currentKind : List Char
  inSpec : Bool
  inIngress : Bool
  inService : Bool
deriving Repr, DecidableEq

/-- The `kind:` block of the line loop: update `currentKind` and the Ingress
and Service flags. -/
def kindStep (st : ScanState) (line : List Char) : ScanState :=
  if startsWith line ("kind:".data) then
    let parts := splitOnSep line [':']
    if 2 ≤ parts.length then
      let ck := trimSpace (parts.getD 1 [])
      { st with currentKind := ck,
                inIngress := ck = ("Ingress".data),
                inService := ck = ("Service".data) }
    else st
  else st

/-- The `spec:` block of the line loop. -/
def specStep (st : ScanState) (line : List Char) : ScanState :=
  if startsWith line ("spec:".data) then { st with inSpec := true } else st

/-- `imageRef` as computed by the `image:` block: everything after the first
colon of the line (`strings.Join(parts[1:], ":")`), trimmed of whitespace and
then of surrounding quote characters. -/
def imageRefOf (line : List Char) : List Char :=
  trimQuotes (trimSpace (List.intercalate [':'] ((splitOnSep line [':']).drop 1)))

/-- Set-semantics append of the `image:` block: add `imageRef` to
`containerImages` when non-empty and not already present. -/
def addImage (m : ManifestMetadata) (imageRef : List Char) : ManifestMetadata :=
  if ¬ m.containerImages.contains (String.mk imageRef) ∧ imageRef ≠ [] then
    { m with containerImages := m.containerImages ++ [String.mk imageRef] }
  else m

/-- Tag derivation of the `image:` block: when `imageRef` still contains a
colon, its last colon-separated component is the tag; the first tag seen
becomes `imageTag`, and the first tag whose lower-casing contains `canary`
becomes `canaryTag`. -/
def addTags (m : ManifestMetadata) (imageRef : List Char) : ManifestMetadata :=
  if containsSub imageRef [':'] then
    let tag := (splitOnSep imageRef [':']).getLastD []
    let m2 := if m.imageTag = "N/A" then { m with imageTag := String.mk tag } else m
    if containsSub (asciiToLower tag) ("canary".data) ∧ m2.canaryTag = "N/A" then
      { m2 with canaryTag := String.mk tag }
    else m2
  else m

/-- The `image:` block of the line loop: record the container image (with set
semantics) and derive the primary and canary tags. -/
def imageStep (st : ScanState) (line : List Char) : ScanState :=
  if containsSub line ("image:".data) && !containsSub line ("imagePullPolicy".data) then
    if 2 ≤ (splitOnSep line [':']).length then
      { st with meta := addTags (addImage st.meta (imageRefOf line)) (imageRefOf line) }
    else st
  else st

/-- The value the `path:` and `port:` blocks extract: `parts[1]` — the text
between the first and second colons of the line — trimmed of whitespace and
then of surrounding quote characters. -/
def valueField (line : List Char) : List Char :=
  trimQuotes (trimSpace ((splitOnSep line [':']).getD 1 []))

/-- The `path:` block of the line loop (active inside an Ingress document). -/
def pathStep (st : ScanState) (line : List Char) : ScanState :=
  if st.inIngress ∧ containsSub line ("path:".data) then
    if 2 ≤ (splitOnSep line [':']).length then
      let path := valueField line
      if path ≠ [] ∧ path ≠ ("/".data) then
        { st with meta :=
            { st.meta with ingressPaths := st.meta.ingressPaths ++ [String.mk path] } }
      else st
    else st
  else st

/-- The `port:` block of the line loop (active inside a Service spec). -/
def portStep (st : ScanState) (line : List Char) : ScanState :=
  if st.inService ∧ st.inSpec ∧ containsSub line ("port:".data) then
    if 2 ≤ (splitOnSep line [':']).length then
      let port := valueField line
      if port ≠ [] then
        { st with meta :=
            { st.meta with servicePorts := st.meta.servicePorts ++ [String.mk port] } }
      else st
    else st
  else st

/-- One iteration of the line loop of `extractManifestMetadata`: trim the line
once, then run the four blocks in source order. -/
def processLine (st : ScanState) (rawLine : List Char) : ScanState :=
  let line := trimSpace rawLine
  portStep (pathStep (imageStep (specStep (kindStep st line) line) line) line) line

/-- Scan one non-empty (already trimmed) document: fresh flags, shared facts. -/
def processResource (meta : ManifestMetadata) (resource : List Char) : ManifestMetadata :=
  let lines := splitOnSep resource ['\n']
  (lines.foldl processLine
    { meta := meta, currentKind := [], inSpec := false, inIngress := false,
      inService := false }).meta

/-- `extractManifestMetadata` of backend/pkg/spec.go: split the manifest on the
document boundary `---`, skip documents that trim to empty, and scan each
remaining document line by line. -/
def extractManifestMetadata (manifest : String) : ManifestMetadata :=
  let resources := splitOnSep manifest.data ("---".data)
  resources.foldl
    (fun meta resource =>
      let r := trimSpace resource
      if r = [] then meta else processResource meta r)
    initMetadata

/-! ## Relational catalog model

Rows mirror the SQLite schema (db/schema/001_charts.sql plus the version
history and manifest metadata migrations).  Timestamp columns are omitted;
the JSON-serialized TEXT columns (`ingress_paths`, `container_images`,
`service_ports` on charts, `ports`/`configs`/`mounts` on apps) are modelled
as the serialized lists themselves. -/

structure ChartRow where
  id : Nat
  name : String
  version : String
  description : Option String
  type : String
  chartUrl : String
  imageTag : Option String
  canaryTag : Option String
  manifest : Option String
  isLatest : Option Bool
  ingressPaths : Option (List String)
  containerImages : Option (List String)
  servicePorts : Option (List String)
deriving Repr, DecidableEq

structure DependencyRow where
  id : Nat
  chartId : Nat
  dependencyName : String
  dependencyVersion : String
  repository : Option String
  conditionField : Option String
deriving Repr, DecidableEq

structure AppRow where
  id : Nat
  chartId : Nat
  name : String
  image : Option String
  appType : Option String
  ports : Option (List String)
  configs : Option (List String)
  mounts : Option (List String)
deriving Repr, DecidableEq

structure DBState where
  charts : List ChartRow
  dependencies : List DependencyRow
  apps : List AppRow
  nextChartId : Nat
  nextDependencyId : Nat
  nextAppId : Nat
deriving Repr, DecidableEq

/-- `GetChart`: `SELECT * FROM charts WHERE name = ? AND is_latest = TRUE LIMIT 1`. -/
def getChart (db : DBState) (name : String) : Option ChartRow :=
  db.charts.find? (fun r => r.name == name && r.isLatest == some true)

/-- `GetChartDependencies` restricted to the dependency columns:
`SELECT d.* FROM dependencies d ... WHERE d.chart_id = ?`. -/
def getChartDependencies (db : DBState) (chartId : Nat) : List DependencyRow :=
  db.dependencies.filter (fun d => d.chartId == chartId)

/-- `GetChartApps`: `SELECT * FROM apps WHERE chart_id = ?`. -/
def getChartApps (db : DBState) (chartId : Nat) : List AppRow :=
  db.apps.filter (fun a => a.chartId == chartId)

/-- Parameters of the sqlc `CreateChart` insert. -/
structure CreateChartParams where
  name : String
  version : String
  description : Option String
  type : String
  chartUrl : String
  imageTag : Option String
  canaryTag : Option String
  manifest : Option String
  isLatest : Option Bool
deriving Repr, DecidableEq

/-- `CreateChart`: `INSERT INTO charts ... RETURNING *`; fails on the schema's
`UNIQUE(name, version)` constraint. -/
def createChart (db : DBState) (p : CreateChartParams) :
    Except String (DBState × ChartRow) :=
  if db.charts.any (fun r => r.name == p.name && r.version == p.version) then
    Except.error "UNIQUE constraint failed: charts.name, charts.version"
  else
    let row : ChartRow :=
      { id := db.nextChartId, name := p.name, version := p.version,
        description := p.description, type := p.type, chartUrl := p.chartUrl,
        imageTag := p.imageTag, canaryTag := p.canaryTag, manifest := p.manifest,
        isLatest := p.isLatest, ingressPaths := none, containerImages := none,
        servicePorts := none }
    Except.ok ({ db with charts := db.charts ++ [row],
                         nextChartId := db.nextChartId + 1 }, row)

/-- `DeleteChartDependencies`: `DELETE FROM dependencies WHERE chart_id = ?`. -/
def deleteChartDependencies (db : DBState) (chartId : Nat) : DBState :=
  { db with dependencies := db.dependencies.filter (fun d => !(d.chartId == chartId)) }

/-- Parameters of the sqlc `CreateDependency` insert. -/
structure CreateDependencyParams where
  chartId : Nat
  dependencyName : String
  dependencyVersion : String
  repository : Option String
  conditionField : Option String
deriving Repr, DecidableEq

/-- `CreateDependency`: `INSERT INTO dependencies ... RETURNING *`; fails on
the schema's `UNIQUE(chart_id, dependency_name)` constraint. -/
def createDependency (db : DBState) (p : CreateDependencyParams) :
    Except String (DBState × DependencyRow) :=
  if db.dependencies.any
      (fun d => d.chartId == p.chartId && d.dependencyName == p.dependencyName) then
    Except.error "UNIQUE constraint failed: dependencies.chart_id, dependencies.dependency_name"
  else
    let row : DependencyRow :=
      { id := db.nextDependencyId, chartId := p.chartId,
        dependencyName := p.dependencyName, dependencyVersion := p.dependencyVersion,
        repository := p.repository, conditionField := p.conditionField }
    Except.ok ({ db with dependencies := db.dependencies ++ [row],
                         nextDependencyId := db.nextDependencyId + 1 }, row)

/-- Parameters of the sqlc `CreateApp` insert. -/
structure CreateAppParams where
  chartId : Nat
  name : String
  image : Option String
  appType : Option String
  ports : Option (List String)
  configs : Option (List String)
  mounts : Option (List String)
deriving Repr, DecidableEq

/-- `CreateApp`: `INSERT INTO apps ... RETURNING *` (no unique constraint). -/
def createApp (db : DBState) (p : CreateAppParams) : DBState × AppRow :=
  let row : AppRow :=
    { id := db.nextAppId, chartId := p.chartId, name := p.name, image := p.image,
      appType := p.appType, ports := p.ports, configs := p.configs, mounts := p.mounts }
  ({ db with apps := db.apps ++ [row], nextAppId := db.nextAppId + 1 }, row)

/-- `SetLatestVersion`: `UPDATE charts SET is_latest = FALSE WHERE name = ?`. -/
def setLatestVersion (db : DBState) (name : String) : DBState :=
  { db with charts := db.charts.map fun r =>
      if r.name == name then { r with isLatest := some false } else r }

/-- `SetVersionAsLatest`:
`UPDATE charts SET is_latest = TRUE WHERE name = ? AND version = ?`. -/
def setVersionAsLatest (db : DBState) (name version : String) : DBState :=
  { db with charts := db.charts.map fun r =>
      if r.name == name && r.version == version then
        { r with isLatest := some true } else r }

/-- `updateChartManifestMetadata`: the raw `UPDATE charts SET ingress_paths =
..., container_images = ..., service_ports = ... WHERE id = ?`. -/
def updateChartManifestMetadata (db : DBState) (chartId : Nat)
    (m : ManifestMetadata) : DBState :=
  { db with charts := db.charts.map fun r =>
      if r.id == chartId then
        { r with ingressPaths := some m.ingressPaths,
                 containerImages := some m.containerImages,
                 servicePorts := some m.servicePorts }
      else r }

/-! ## Bundle summaries (the Go `Chart`/`Dependency`/`ChartInfo` structs and
the external `spec.App` applications) -/

structure Dependency where
  name : String
  version : String
  repository : String
  condition : String
deriving Repr, DecidableEq

structure Chart where
  name : String
  version : String
  description : String
  type : String
  dependencies : List Dependency
deriving Repr, DecidableEq

structure ChartInfo where
  chart : Chart
  imageTag : String
  canaryTag : String
  manifestMetadata : Option ManifestMetadata
deriving Repr, DecidableEq

/-- The fields of the external `spec.App` that `storeChartInDB` persists. -/
structure App where
  name : String
  image : String
  type : String
  ports : List String
  configs : List String
  mounts : List String
deriving Repr, DecidableEq

/-- Go `sql.NullString{String: s, Valid: valid}` viewed as an option. -/
def nullString (s : String) (valid : Bool) : Option String :=
  if valid then some s else none

/-- The dependency loop of `storeChartInDB`.  The source first makes a
best-effort nested fetch (`TryFetchChart`) to learn the dependency's own
image/canary tags; its result is logged and discarded ("store dependency
without tags"), so it has no effect on the stored state and is omitted.
A failed insert is logged and skipped. -/
def storeDependencies (db : DBState) (chartId : Nat) (deps : List Dependency) : DBState :=
  deps.foldl
    (fun db dep =>
      match createDependency db
          { chartId := chartId, dependencyName := dep.name,
            dependencyVersion := dep.version,
            repository := nullString dep.repository (dep.repository != ""),
            conditionField := nullString dep.condition (dep.condition != "") } with
      | Except.error _ => db
      | Except.ok (db', _) => db')
    db

/-- The application loop of `storeChartInDB`; a failed insert is logged and
skipped (`createApp` never fails in the model). -/
def storeApps (db : DBState) (chartId : Nat) (apps : List App) : DBState :=
  apps.foldl
    (fun db app =>
      (createApp db
        { chartId := chartId, name := app.name,
          image := nullString app.image (app.image != ""),
          appType := nullString app.type (app.type != ""),
          ports := if app.ports.length > 0 then some app.ports else none,
          configs := if app.configs.length > 0 then some app.configs else none,
          mounts := if app.mounts.length > 0 then some app.mounts else none }).1)
    db

/-- `storeChartInDB` (`StoreChartInDB` in backend/pkg/spec.go): look up an
existing current row by name; create a fresh current row if none (then write
the manifest metadata columns), otherwise reuse the existing row and clear its
dependency edges; finally insert the summary's dependencies and applications. -/
def storeChartInDB (db : DBState) (chartInfo : ChartInfo) (apps : List App)
    (chartURL : String) : Except String (DBState × ChartRow) :=
  match getChart db chartInfo.chart.name with
  | none =>
    match createChart db
        { name := chartInfo.chart.name, version := chartInfo.chart.version,
          description := nullString chartInfo.chart.description
            (chartInfo.chart.description != ""),
          type := chartInfo.chart.type, chartUrl := chartURL,
          imageTag := nullString chartInfo.imageTag (chartInfo.imageTag != "N/A"),
          canaryTag := nullString chartInfo.canaryTag (chartInfo.canaryTag != "N/A"),
          manifest := nullString "" false,
          isLatest := some true } with
    | Except.error e => Except.error ("failed to create chart: " ++ e)
    | Except.ok (db1, storedChart) =>
      let db2 :=
        match chartInfo.manifestMetadata with
        | some m => updateChartManifestMetadata db1 storedChart.id m
        | none => db1
      let db3 := storeDependencies db2 storedChart.id chartInfo.chart.dependencies
      let db4 := storeApps db3 storedChart.id apps
      Except.ok (db4, storedChart)
  | some existingChart =>
    let db1 := deleteChartDependencies db existingChart.id
    let db2 := storeDependencies db1 existingChart.id chartInfo.chart.dependencies
    let db3 := storeApps db2 existingChart.id apps
    Except.ok (db3, existingChart)

/-- `switchChartVersion`: clear `is_latest` on every row of the name, then set
it on the `(name, version)` row (the two sqlc updates, in that order). -/
def switchChartVersion (db : DBState) (name version : String) : DBState :=
  setVersionAsLatest (setLatestVersion db name) name version

/-! ## Dependency resolver (`fetchChartDependenciesAdvanced`)

The fetch side (`tryFetchChart`, i.e. the rendering engine) is an oracle
`fetch : String → Except String ChartInfo` mapping a candidate location to a
summary or an error message.  The resolver is the per-edge loop of the
handler, taking the rows returned by the `FetchChartDependencies` query. -/

structure FetchDepRow where
  dependencyName : String
  dependencyVersion : String
  repository : Option String
deriving Repr, DecidableEq

/-- The candidate location list the resolver tries for one dependency: the
three hard-coded registry patterns, with the edge's repository hint prepended
when present and non-empty. -/
def candidateLocations (dep : FetchDepRow) : List String :=
  let registries :=
    ["oci://registry-1.docker.io/bitnamicharts/" ++ dep.dependencyName,
     "oci://registry.k8s.io/" ++ dep.dependencyName ++ "/" ++ dep.dependencyName,
     "oci://ghcr.io/helm/" ++ dep.dependencyName]
  match dep.repository with
  | some r => if r != "" then [r] ++ registries else registries
  | none => registries

/-- The candidate loop: try each location in order, stopping at the first
success; on total failure return the last error (Go keeps only `fetchErr` of
the last attempt). -/
def tryCandidates (fetch : String → Except String ChartInfo) :
    List String → Option ChartInfo × Option String
  | [] => (none, none)
  | url :: rest =>
    match fetch url with
    | Except.ok info => (some info, none)
    | Except.error e =>
      match rest with
      | [] => (none, some e)
      | _ :: _ => tryCandidates fetch rest

/-- Go's `fmt` rendering of the final `fetchErr` (never `nil` in practice:
the candidate list always has at least the three hard-coded entries). -/
def errText : Option String → String
  | some e => e
  | none => "<nil>"

structure ResolveState where
  db : DBState
  fetched : List ChartInfo
  errors : List String
deriving Repr, DecidableEq

/-- One iteration of the resolver's dependency loop: skip edges whose name is
already stored as a current chart; otherwise try the candidates, and on
success store the summary — with `registries[0]` as the chart URL — while on
total failure append one error naming the dependency. -/
def processDep (fetch : String → Except String ChartInfo) (st : ResolveState)
    (dep : FetchDepRow) : ResolveState :=
  match getChart st.db dep.dependencyName with
  | some _ => st
  | none =>
    let registries := candidateLocations dep
    match tryCandidates fetch registries with
    | (some info, _) =>
      match storeChartInDB st.db info [] (registries.headD "") with
      | Except.ok (db', _) => { st with db := db', fetched := st.fetched ++ [info] }
      | Except.error storeErr =>
        { st with errors := st.errors ++
            ["Failed to store " ++ dep.dependencyName ++ ": " ++ storeErr] }
    | (none, lastErr) =>
      { st with errors := st.errors ++
          ["Failed to fetch " ++ dep.dependencyName ++ " from any registry: " ++
            errText lastErr] }

/-- The dependency loop of `fetchChartDependenciesAdvanced`, folded over the
rows of the `FetchChartDependencies` query. -/
def fetchChartDependenciesAdvanced (fetch : String → Except String ChartInfo)
    (db : DBState) (deps : List FetchDepRow) : ResolveState :=
  deps.foldl (processDep fetch) { db := db, fetched := [], errors := [] }

/-! ## Lemmas about the Go string primitives -/

theorem splitFirst_eq_append {sep : List Char} :
    ∀ {s pre post : List Char}, splitFirst sep s = some (pre, post) →
      s = pre ++ sep ++ post := by
  intro s
  induction s with
  | nil => intro pre post h; simp [splitFirst] at h
  | cons c cs ih =>
    intro pre post h
    by_cases hp : sep.isPrefixOf (c :: cs)
    · rw [splitFirst, if_pos hp] at h
      obtain ⟨t, ht⟩ := List.isPrefixOf_iff_prefix.mp hp
      injection h with h
      injection h with h1 h2
      subst h1
      rw [← ht, List.drop_left] at h2
      rw [← h2, ← ht]
      simp
    · rw [splitFirst, if_neg hp] at h
      cases hcs : splitFirst sep cs with
      | none => rw [hcs] at h; exact absurd h (by simp)
      | some pr =>
        obtain ⟨pre', post'⟩ := pr
        rw [hcs] at h
        injection h with h
        injection h with h1 h2
        subst h1; subst h2
        have := ih hcs
        rw [this]
        simp

theorem splitFirst_isSome_append {sep : List Char} (hsep : sep ≠ []) :
    ∀ (pre post : List Char), (splitFirst sep (pre ++ sep ++ post)).isSome := by
  intro pre
  induction pre with
  | nil =>
    intro post
    obtain ⟨d, sep', rfl⟩ : ∃ d sep', sep = d :: sep' := by
      cases sep with
      | nil => exact absurd rfl hsep
      | cons d sep' => exact ⟨d, sep', rfl⟩
    have hp : (d :: sep').isPrefixOf (d :: (sep' ++ post)) = true :=
      List.isPrefixOf_iff_prefix.mpr ⟨post, by simp⟩
    simp only [List.nil_append, List.cons_append]
    rw [splitFirst, if_pos hp]
    simp
  | cons c pre' ih =>
    intro post
    simp only [List.cons_append]
    by_cases hp : sep.isPrefixOf (c :: (pre' ++ sep ++ post))
    · rw [splitFirst, if_pos hp]; simp
    · rw [splitFirst, if_neg hp]
      have hi := ih post
      cases h : splitFirst sep (pre' ++ sep ++ post) with
      | none => rw [h] at hi; simp at hi
      | some pr =>
        obtain ⟨a, b⟩ := pr
        simp

theorem containsSub_iff {s sub : List Char} (hsub : sub ≠ []) :
    containsSub s sub = true ↔ ∃ pre post, s = pre ++ sub ++ post := by
  constructor
  · intro h
    rw [containsSub] at h
    cases hs : splitFirst sub s with
    | none => rw [hs] at h; simp at h
    | some pr => exact ⟨pr.1, pr.2, splitFirst_eq_append (by rw [hs])⟩
  · rintro ⟨pre, post, rfl⟩
    exact splitFirst_isSome_append hsub pre post

theorem containsSub_mono {t s sub : List Char} (hsub : sub ≠ [])
    (hinf : t <:+: s) (h : containsSub t sub = true) : containsSub s sub = true := by
  obtain ⟨pre, post, rfl⟩ := (containsSub_iff hsub).mp h
  obtain ⟨u, v, rfl⟩ := hinf
  exact (containsSub_iff hsub).mpr ⟨u ++ pre, post ++ v, by simp⟩

theorem splitFirst_none_char {c : Char} :
    ∀ {s : List Char}, splitFirst [c] s = none → c ∉ s := by
  intro s
  induction s with
  | nil => intro _; simp
  | cons d ds ih =>
    intro h
    by_cases hp : [c].isPrefixOf (d :: ds)
    · rw [splitFirst, if_pos hp] at h; simp at h
    · have hdc : c ≠ d := by
        intro he; subst he
        exact hp <| List.isPrefixOf_iff_prefix.mpr ⟨ds, by simp⟩
      rw [splitFirst, if_neg hp] at h
      cases hds : splitFirst [c] ds with
      | none => simp [hdc, ih hds]
      | some pr => rw [hds] at h; simp at h

theorem splitFirst_some_char {c : Char} :
    ∀ {s pre post : List Char}, splitFirst [c] s = some (pre, post) → c ∉ pre := by
  intro s
  induction s with
  | nil => intro pre post h; simp [splitFirst] at h
  | cons d ds ih =>
    intro pre post h
    by_cases hp : [c].isPrefixOf (d :: ds)
    · rw [splitFirst, if_pos hp] at h
      injection h with h
      injection h with h1 _
      subst h1; simp
    · have hdc : c ≠ d := by
        intro he; subst he
        exact hp <| List.isPrefixOf_iff_prefix.mpr ⟨ds, by simp⟩
      rw [splitFirst, if_neg hp] at h
      cases hds : splitFirst [c] ds with
      | none => rw [hds] at h; simp at h
      | some pr =>
        obtain ⟨pre', post'⟩ := pr
        rw [hds] at h
        injection h with h
        injection h with h1 _
        subst h1
        simp only [List.mem_cons]
        push_neg
        exact ⟨hdc, ih hds⟩

theorem splitFirst_post_length {sep : List Char} (hsep : sep ≠ [])
    {s pre post : List Char} (h : splitFirst sep s = some (pre, post)) :
    post.length < s.length := by
  have := splitFirst_eq_append h
  subst this
  have : 1 ≤ sep.length := by
    cases sep with
    | nil => exact absurd rfl hsep
    | cons _ _ => simp
  simp only [List.length_append]
  omega

theorem mem_splitOnSepAux_isInf {sep : List Char} :
    ∀ (fuel : Nat) (s t : List Char), t ∈ splitOnSepAux sep fuel s → t <:+: s := by
  intro fuel
  induction fuel with
  | zero =>
    intro s t h
    rw [splitOnSepAux] at h
    simp at h
    subst h
    exact List.infix_rfl
  | succ fuel ih =>
    intro s t h
    rw [splitOnSepAux] at h
    cases hs : splitFirst sep s with
    | none =>
      rw [hs] at h; simp at h; subst h; exact List.infix_rfl
    | some pr =>
      obtain ⟨pre, post⟩ := pr
      rw [hs] at h
      have hdec := splitFirst_eq_append hs
      simp only [List.mem_cons] at h
      rcases h with rfl | h
      · exact ⟨[], sep ++ post, by rw [hdec]; simp⟩
      · exact (ih post t h).trans ⟨pre ++ sep, [], by rw [hdec]; simp⟩

theorem mem_splitOnSep_isInf {s sep t : List Char} (h : t ∈ splitOnSep s sep) :
    t <:+: s :=
  mem_splitOnSepAux_isInf s.length s t h

theorem splitOnSepAux_ne_nil {sep : List Char} (fuel : Nat) (s : List Char) :
    splitOnSepAux sep fuel s ≠ [] := by
  cases fuel with
  | zero => rw [splitOnSepAux]; simp
  | succ fuel =>
    rw [splitOnSepAux]
    cases splitFirst sep s with
    | none => simp
    | some pr => simp

theorem char_not_mem_splitOnSepAux {c : Char} :
    ∀ (fuel : Nat) (s : List Char), s.length ≤ fuel →
      ∀ t ∈ splitOnSepAux [c] fuel s, c ∉ t := by
  intro fuel
  induction fuel with
  | zero =>
    intro s hlen t h
    have hs0 : s = [] := List.length_eq_zero.mp (Nat.le_zero.mp hlen)
    subst hs0
    rw [splitOnSepAux] at h
    simp at h
    subst h
    simp
  | succ fuel ih =>
    intro s hlen t h
    rw [splitOnSepAux] at h
    cases hs : splitFirst [c] s with
    | none =>
      rw [hs] at h; simp at h; subst h
      exact splitFirst_none_char hs
    | some pr =>
      obtain ⟨pre, post⟩ := pr
      rw [hs] at h
      simp only [List.mem_cons] at h
      rcases h with rfl | h
      · exact splitFirst_some_char hs
      · have hpl : post.length ≤ fuel :=
          Nat.lt_succ_iff.mp (Nat.lt_of_lt_of_le (splitFirst_post_length (by simp) hs) hlen)
        exact ih post hpl t h

theorem char_not_mem_splitOnSep {c : Char} {s t : List Char}
    (h : t ∈ splitOnSep s [c]) : c ∉ t :=
  char_not_mem_splitOnSepAux s.length s (Nat.le_refl _) t h

theorem dropTrailing_isPre (p : Char → Bool) (s : List Char) :
    dropTrailing p s <+: s := by
  have h : s.reverse.dropWhile p <:+ s.reverse := List.dropWhile_suffix p
  obtain ⟨t, ht⟩ := h
  rw [dropTrailing]
  refine ⟨t.reverse, ?_⟩
  have := congrArg List.reverse ht
  simpa using this

theorem dropTrailing_dropWhile_isInf (p q : Char → Bool) (s : List Char) :
    dropTrailing p (s.dropWhile q) <:+: s :=
  ((dropTrailing_isPre p _).isInfix).trans (List.dropWhile_suffix q).isInfix

theorem trimSpace_isInf (s : List Char) : trimSpace s <:+: s :=
  dropTrailing_dropWhile_isInf _ _ s

theorem trimQuotes_isInf (s : List Char) : trimQuotes s <:+: s :=
  dropTrailing_dropWhile_isInf _ _ s

/-- A prefix of `a ++ c :: b` avoiding `c` is a prefix of `a`. -/
theorem pre_of_pre_append_cons {c : Char} :
    ∀ {t a b : List Char}, t <+: a ++ c :: b → c ∉ t → t <+: a := by
  intro t
  induction t with
  | nil => intro a b _ _; exact List.nil_prefix
  | cons x t' ih =>
    intro a b h hc
    cases a with
    | nil =>
      simp only [List.nil_append] at h
      have hx : x = c := (List.cons_prefix_cons.mp h).1
      exact absurd (by simp [hx]) hc
    | cons y a' =>
      simp only [List.cons_append] at h
      obtain ⟨hxy, ht'⟩ := List.cons_prefix_cons.mp h
      subst hxy
      have hc' : c ∉ t' := fun hm => hc (by simp [hm])
      exact List.cons_prefix_cons.mpr ⟨rfl, ih ht' hc'⟩

/-- An infix of `a ++ c :: b` avoiding `c` lies inside `a` or inside `b`. -/
theorem inf_append_cons_split {c : Char} :
    ∀ {a t b : List Char}, t <:+: a ++ c :: b → c ∉ t → t <:+: a ∨ t <:+: b := by
  intro a
  induction a with
  | nil =>
    intro t b h hc
    simp only [List.nil_append] at h
    rcases List.infix_cons_iff.mp h with hpre | hinf
    · left
      have h0 : t <+: ([] : List Char) ++ c :: b := by simpa using hpre
      have := pre_of_pre_append_cons h0 hc
      simpa using this.isInfix
    · right; exact hinf
  | cons y a' ih =>
    intro t b h hc
    simp only [List.cons_append] at h
    rcases List.infix_cons_iff.mp h with hpre | hinf
    · left
      have : t <+: y :: (a' ++ c :: b) := hpre
      have h2 : t <+: y :: a' := by
        cases t with
        | nil => exact List.nil_prefix
        | cons x t' =>
          obtain ⟨hxy, ht'⟩ := List.cons_prefix_cons.mp this
          subst hxy
          have hc' : c ∉ t' := fun hm => hc (by simp [hm])
          exact List.cons_prefix_cons.mpr ⟨rfl, pre_of_pre_append_cons ht' hc'⟩
      exact h2.isInfix
    · rcases ih hinf hc with h1 | h2
      · left; exact h1.trans ((List.suffix_cons y a').isInfix)
      · right; exact h2

/-- A separator-free infix of `s` is an infix of one of the chunks of the
separator split of `s`. -/
theorem inf_chunk_of_inf {c : Char} :
    ∀ (fuel : Nat) (s t : List Char), s.length ≤ fuel → t <:+: s → c ∉ t →
      ∃ u ∈ splitOnSepAux [c] fuel s, t <:+: u := by
  intro fuel
  induction fuel with
  | zero =>
    intro s t hlen hinf _
    have hs0 : s = [] := List.length_eq_zero.mp (Nat.le_zero.mp hlen)
    subst hs0
    exact ⟨[], by rw [splitOnSepAux]; simp, hinf⟩
  | succ fuel ih =>
    intro s t hlen hinf hc
    rw [splitOnSepAux]
    cases hs : splitFirst [c] s with
    | none => exact ⟨s, by simp, hinf⟩
    | some pr =>
      obtain ⟨pre, post⟩ := pr
      have hdec := splitFirst_eq_append hs
      rw [hdec] at hinf
      simp only [List.append_assoc, List.singleton_append] at hinf
      rcases inf_append_cons_split hinf hc with h1 | h2
      · exact ⟨pre, by simp, h1⟩
      · have hpl : post.length ≤ fuel :=
          Nat.lt_succ_iff.mp (Nat.lt_of_lt_of_le (splitFirst_post_length (by simp) hs) hlen)
        obtain ⟨u, hu, htu⟩ := ih post t hpl h2 hc
        exact ⟨u, by simp [hu], htu⟩

/-- A newline-free infix of `s` is an infix of one of `s`'s lines. -/
theorem inf_line_of_inf {c : Char} {s t : List Char} (hinf : t <:+: s) (hc : c ∉ t) :
    ∃ u ∈ splitOnSep s [c], t <:+: u :=
  inf_chunk_of_inf s.length s t (Nat.le_refl _) hinf hc

/-! ## Lemmas about the extractor's line blocks -/

theorem kindStep_meta (st : ScanState) (line : List Char) :
    (kindStep st line).meta = st.meta := by
  simp only [kindStep]
  split_ifs <;> rfl

theorem specStep_meta (st : ScanState) (line : List Char) :
    (specStep st line).meta = st.meta := by
  simp only [specStep]
  split_ifs <;> rfl

theorem specStep_inIngress (st : ScanState) (line : List Char) :
    (specStep st line).inIngress = st.inIngress := by
  simp only [specStep]
  split_ifs <;> rfl

theorem imageStep_eq_of_not (st : ScanState) (line : List Char)
    (h : containsSub line ("image:".data) = false) : imageStep st line = st := by
  simp only [imageStep, h]
  simp

theorem pathStep_eq_of_not (st : ScanState) (line : List Char)
    (h : containsSub line ("path:".data) = false) : pathStep st line = st := by
  simp only [pathStep, h]
  simp

theorem portStep_eq_of_not (st : ScanState) (line : List Char)
    (h : containsSub line ("port:".data) = false) : portStep st line = st := by
  simp only [portStep, h]
  simp

theorem addTags_images (m : ManifestMetadata) (ref : List Char) :
    (addTags m ref).containerImages = m.containerImages := by
  simp only [addTags]
  split_ifs <;> rfl

theorem addTags_ingressPaths (m : ManifestMetadata) (ref : List Char) :
    (addTags m ref).ingressPaths = m.ingressPaths := by
  simp only [addTags]
  split_ifs <;> rfl

theorem addImage_ingressPaths (m : ManifestMetadata) (ref : List Char) :
    (addImage m ref).ingressPaths = m.ingressPaths := by
  simp only [addImage]
  split_ifs <;> rfl

theorem imageStep_inIngress (st : ScanState) (line : List Char) :
    (imageStep st line).inIngress = st.inIngress := by
  simp only [imageStep]
  split_ifs <;> rfl

theorem imageStep_ingressPaths (st : ScanState) (line : List Char) :
    (imageStep st line).meta.ingressPaths = st.meta.ingressPaths := by
  simp only [imageStep]
  split_ifs <;> simp [addTags_ingressPaths, addImage_ingressPaths]

theorem nodup_append_not_contains {l : List String} {a : String}
    (h : l.Nodup) (hc : ¬ l.contains a = true) : (l ++ [a]).Nodup := by
  rw [List.nodup_append]
  refine ⟨h, List.nodup_singleton a, ?_⟩
  intro x hx hxa
  simp only [List.mem_singleton] at hxa
  subst hxa
  exact hc (by simp [hx])

theorem addImage_nodup (m : ManifestMetadata) (ref : List Char)
    (h : m.containerImages.Nodup) : (addImage m ref).containerImages.Nodup := by
  simp only [addImage]
  split_ifs with hc
  · exact nodup_append_not_contains h hc.1
  · exact h

theorem imageStep_images_nodup (st : ScanState) (line : List Char)
    (h : st.meta.containerImages.Nodup) :
    (imageStep st line).meta.containerImages.Nodup := by
  simp only [imageStep]
  split_ifs with h1 h2
  · simpa [addTags_images] using addImage_nodup st.meta (imageRefOf line) h
  · exact h
  · exact h

theorem pathStep_images (st : ScanState) (line : List Char) :
    (pathStep st line).meta.containerImages = st.meta.containerImages := by
  simp only [pathStep]
  split_ifs <;> rfl

theorem portStep_images (st : ScanState) (line : List Char) :
    (portStep st line).meta.containerImages = st.meta.containerImages := by
  simp only [portStep]
  split_ifs <;> rfl

theorem processLine_images_nodup (st : ScanState) (rawLine : List Char)
    (h : st.meta.containerImages.Nodup) :
    (processLine st rawLine).meta.containerImages.Nodup := by
  rw [processLine]
  rw [portStep_images, pathStep_images]
  apply imageStep_images_nodup
  rw [specStep_meta, kindStep_meta]
  exact h

theorem foldl_processLine_images_nodup :
    ∀ (lines : List (List Char)) (st : ScanState),
      st.meta.containerImages.Nodup →
      (lines.foldl processLine st).meta.containerImages.Nodup := by
  intro lines
  induction lines with
  | nil => intro st h; exact h
  | cons l ls ih =>
    intro st h
    rw [List.foldl_cons]
    exact ih _ (processLine_images_nodup st l h)

theorem processResource_images_nodup (meta : ManifestMetadata) (resource : List Char)
    (h : meta.containerImages.Nodup) :
    (processResource meta resource).containerImages.Nodup := by
  rw [processResource]
  exact foldl_processLine_images_nodup _ _ h

theorem foldl_resources_images_nodup :
    ∀ (resources : List (List Char)) (meta : ManifestMetadata),
      meta.containerImages.Nodup →
      (resources.foldl
        (fun meta resource =>
          let r := trimSpace resource
          if r = [] then meta else processResource meta r) meta).containerImages.Nodup := by
  intro resources
  induction resources with
  | nil => intro meta h; exact h
  | cons r rs ih =>
    intro meta h
    rw [List.foldl_cons]
    apply ih
    by_cases hr : trimSpace r = []
    · simpa [hr] using h
    · simpa [hr] using processResource_images_nodup meta (trimSpace r) h

/-! ## Meta-preservation of the line loop on lines free of the key substrings -/

theorem contains_trim_false {s sub : List Char} (hsub : sub ≠ [])
    (h : containsSub s sub = false) : containsSub (trimSpace s) sub = false := by
  cases hc : containsSub (trimSpace s) sub
  · rfl
  · exact absurd (containsSub_mono hsub (trimSpace_isInf s) hc) (by simp [h])

theorem processLine_meta_of_not (st : ScanState) (rawLine : List Char)
    (himg : containsSub rawLine ("image:".data) = false)
    (hpath : containsSub rawLine ("path:".data) = false)
    (hport : containsSub rawLine ("port:".data) = false) :
    (processLine st rawLine).meta = st.meta := by
  rw [processLine]
  rw [portStep_eq_of_not _ _ (contains_trim_false (by simp) hport)]
  rw [pathStep_eq_of_not _ _ (contains_trim_false (by simp) hpath)]
  rw [imageStep_eq_of_not _ _ (contains_trim_false (by simp) himg)]
  rw [specStep_meta, kindStep_meta]

theorem foldl_processLine_meta_of_not :
    ∀ (lines : List (List Char)) (st : ScanState),
      (∀ l ∈ lines, containsSub l ("image:".data) = false ∧
        containsSub l ("path:".data) = false ∧ containsSub l ("port:".data) = false) →
      (lines.foldl processLine st).meta = st.meta := by
  intro lines
  induction lines with
  | nil => intro st _; rfl
  | cons l ls ih =>
    intro st h
    rw [List.foldl_cons]
    rw [ih _ fun x hx => h x (by simp [hx])]
    exact processLine_meta_of_not st l (h l (by simp)).1 (h l (by simp)).2.1 (h l (by simp)).2.2

theorem processResource_id (meta : ManifestMetadata) (resource : List Char)
    (h : ∀ l ∈ splitOnSep resource ['\n'], containsSub l ("image:".data) = false ∧
      containsSub l ("path:".data) = false ∧ containsSub l ("port:".data) = false) :
    processResource meta resource = meta := by
  rw [processResource]
  exact foldl_processLine_meta_of_not _ _ h

theorem contains_false_of_lines {s t sub : List Char} (hsub : sub ≠ [])
    (hinf : t <:+: s) (hnl : ('\n') ∉ t)
    (h : ∀ u ∈ splitOnSep s [('\n')], containsSub u sub = false) :
    containsSub t sub = false := by
  cases hc : containsSub t sub
  · rfl
  · obtain ⟨u, hu, htu⟩ := inf_line_of_inf hinf hnl
    exact absurd (containsSub_mono hsub htu hc) (by simp [h u hu])

theorem foldl_fix {α β : Type} (f : β → α → β) :
    ∀ (l : List α) (init : β), (∀ x ∈ l, ∀ m, f m x = m) → l.foldl f init = init := by
  intro l
  induction l with
  | nil => intro init _; rfl
  | cons x xs ih =>
    intro init h
    rw [List.foldl_cons, h x (by simp) init]
    exact ih init fun y hy => h y (by simp [hy])

/-! ## Claim theorems for the manifest fact extractor -/

/-- C7: on the manifest text `kind: Deployment\nspec:\n  containers:\n
  - image: nginx:1.2.3\n` the extractor returns `imageTag = "1.2.3"`,
`containerImages = ["nginx:1.2.3"]` and `canaryTag = "N/A"` (together with
empty path and port lists). -/
theorem C7_extractor_deployment_example :
    extractManifestMetadata "kind: Deployment\nspec:\n  containers:\n  - image: nginx:1.2.3\n" =
      { imageTag := "1.2.3", canaryTag := "N/A", containerImages := ["nginx:1.2.3"],
        ingressPaths := [], servicePorts := [] } := by
  decide

/-- C8: for every input manifest text, the `containerImages` list returned by
the extractor contains no two equal entries. -/
theorem C8_containerImages_nodup (manifest : String) :
    (extractManifestMetadata manifest).containerImages.Nodup := by
  rw [extractManifestMetadata]
  exact foldl_resources_images_nodup _ _ (by simp [initMetadata])

/-- C9: the extractor is a total function, and on every input none of whose
lines contains one of the substrings `image:`, `kind:`, `path:`, `port:`
(in particular on the empty input) it returns the all-defaults fact set. -/
theorem C9_extractor_defaults (manifest : String)
    (h : ∀ line ∈ splitOnSep manifest.data [('\n')],
      containsSub line ("image:".data) = false ∧ containsSub line ("kind:".data) = false ∧
      containsSub line ("path:".data) = false ∧ containsSub line ("port:".data) = false) :
    extractManifestMetadata manifest = initMetadata := by
  rw [extractManifestMetadata]
  apply foldl_fix
  intro resource hres m
  by_cases hr : trimSpace resource = []
  · simp [hr]
  · simp only [if_neg hr]
    apply processResource_id
    intro l hl
    have hinf : l <:+: manifest.data :=
      ((mem_splitOnSep_isInf hl).trans (trimSpace_isInf resource)).trans
        (mem_splitOnSep_isInf hres)
    have hnl : ('\n') ∉ l := char_not_mem_splitOnSep hl
    exact ⟨contains_false_of_lines (by simp) hinf hnl fun u hu => (h u hu).1,
      contains_false_of_lines (by simp) hinf hnl fun u hu => (h u hu).2.2.1,
      contains_false_of_lines (by simp) hinf hnl fun u hu => (h u hu).2.2.2⟩

/-- Witness for C9 at the concrete two-line input `hello\nworld`. -/
theorem C9_extractor_defaults_witness :
    extractManifestMetadata "hello\nworld" = initMetadata :=
  C9_extractor_defaults "hello\nworld" (by decide)

/-! ## Claim C3: the ingress-path extraction -/

theorem contains_char_of_contains {s sub : List Char} {c : Char}
    (h : containsSub s sub = true) (hc : c ∈ sub) : containsSub s [c] = true := by
  have hsub : sub ≠ [] := by rintro rfl; simp at hc
  obtain ⟨pre, post, rfl⟩ := (containsSub_iff hsub).mp h
  obtain ⟨u, v, rfl⟩ := List.append_of_mem hc
  refine (containsSub_iff (by simp)).mpr ⟨pre ++ u, v ++ post, ?_⟩
  simp

theorem two_le_parts {s : List Char} {c : Char} (h : containsSub s [c] = true) :
    2 ≤ (splitOnSep s [c]).length := by
  rw [containsSub] at h
  cases hs : splitFirst [c] s with
  | none => rw [hs] at h; simp at h
  | some pr =>
    obtain ⟨pre, post⟩ := pr
    have hdec := splitFirst_eq_append hs
    have hpos : 1 ≤ s.length := by
      rw [hdec]; simp only [List.length_append, List.length_cons, List.length_singleton]; omega
    obtain ⟨n, hn⟩ : ∃ n, s.length = n + 1 := ⟨s.length - 1, by omega⟩
    rw [splitOnSep, hn, splitOnSepAux, hs]
    have := @splitOnSepAux_ne_nil [c] n post
    have hlen : 1 ≤ (splitOnSepAux [c] n post).length := List.length_pos.mpr this
    simp only [List.length_cons]
    omega

theorem portStep_ingressPaths (st : ScanState) (line : List Char) :
    (portStep st line).meta.ingressPaths = st.meta.ingressPaths := by
  simp only [portStep]
  split_ifs <;> rfl

theorem kindStep_eq_of_not (st : ScanState) (line : List Char)
    (h : startsWith line ("kind:".data) = false) : kindStep st line = st := by
  simp [kindStep, h]

theorem pathStep_appends (st : ScanState) (line : List Char)
    (hin : st.inIngress = true)
    (hcon : containsSub line ("path:".data) = true)
    (hne : valueField line ≠ [])
    (hslash : valueField line ≠ ("/".data)) :
    pathStep st line = { st with meta :=
      { st.meta with ingressPaths := st.meta.ingressPaths ++ [String.mk (valueField line)] } } := by
  have hcolon : containsSub line [':'] = true := contains_char_of_contains hcon (by decide)
  have hlen : 2 ≤ (splitOnSep line [':']).length := two_le_parts hcolon
  simp only [pathStep]
  rw [if_pos ⟨hin, hcon⟩, if_pos hlen, if_pos ⟨hne, hslash⟩]

/-- C3 (amended): inside an Ingress block, a line containing `path:` (and not
itself a `kind:` line) appends to `ingressPaths` the value between the first
and the second colon of the line — not the entire remainder of the line —
trimmed of whitespace and quotes, whenever that value is non-empty and not
`/`.  A path value containing a colon is therefore truncated at that colon. -/
theorem C3_ingress_path_appends (st : ScanState) (rawLine : List Char)
    (hkind : startsWith (trimSpace rawLine) ("kind:".data) = false)
    (hin : st.inIngress = true)
    (hcon : containsSub (trimSpace rawLine) ("path:".data) = true)
    (hne : valueField (trimSpace rawLine) ≠ [])
    (hslash : valueField (trimSpace rawLine) ≠ ("/".data)) :
    (processLine st rawLine).meta.ingressPaths =
      st.meta.ingressPaths ++ [String.mk (valueField (trimSpace rawLine))] := by
  rw [processLine]
  rw [portStep_ingressPaths]
  have hst3in : (imageStep (specStep (kindStep st (trimSpace rawLine)) (trimSpace rawLine))
      (trimSpace rawLine)).inIngress = true := by
    rw [imageStep_inIngress, specStep_inIngress, kindStep_eq_of_not _ _ hkind]
    exact hin
  rw [pathStep_appends _ _ hst3in hcon hne hslash]
  simp only
  rw [imageStep_ingressPaths, specStep_meta, kindStep_eq_of_not _ _ hkind]

/-- Witness for the amended C3 at a concrete Ingress state and line. -/
theorem C3_ingress_path_appends_witness :
    (processLine
      { meta := initMetadata, currentKind := ("Ingress".data), inSpec := true,
        inIngress := true, inService := false } ("  path: /foo".data)).meta.ingressPaths =
      ["/foo"] := by
  have h := C3_ingress_path_appends
    { meta := initMetadata, currentKind := ("Ingress".data), inSpec := true,
      inIngress := true, inService := false } ("  path: /foo".data)
    (by decide) (by decide) (by decide) (by decide) (by decide)
  rw [h]
  decide

/-- Counterexample to C3 as stated: in an Ingress document the line
`path: /a:b` yields the ingress path `/a` (the value is cut at the second
colon), not the full value `/a:b` after the first colon. -/
theorem C3_counterexample :
    (extractManifestMetadata "kind: Ingress\npath: /a:b").ingressPaths = ["/a"] ∧
    "/a:b" ∉ (extractManifestMetadata "kind: Ingress\npath: /a:b").ingressPaths := by
  decide

/-! ## Claim C5: the version switch -/

/-- The per-row effect of clearing `is_latest` for a name and then setting it
on the `(name, target)` row. -/
def switchFun (name target : String) (r : ChartRow) : ChartRow :=
  if r.name == name then
    (if r.version == target then { r with isLatest := some true }
     else { r with isLatest := some false })
  else r

theorem switch_charts_eq (db : DBState) (name target : String) :
    (switchChartVersion db name target).charts = db.charts.map (switchFun name target) := by
  simp only [switchChartVersion, setVersionAsLatest, setLatestVersion, List.map_map]
  apply List.map_congr_left
  intro r _
  by_cases h1 : r.name == name
  · by_cases h2 : r.version == target
    · simp [Function.comp, switchFun, h1, h2]
    · simp [Function.comp, switchFun, h1, h2]
  · simp [Function.comp, switchFun, h1]

theorem switch_count (name target : String) :
    ∀ l : List ChartRow,
      ((l.map (switchFun name target)).filter
        (fun r => r.name == name && r.isLatest == some true)).length =
      ((l.filter (fun r => r.name == name)).map (fun r => r.version)).count target := by
  intro l
  induction l with
  | nil => rfl
  | cons r t ih =>
    by_cases h1 : r.name == name
    · by_cases h2 : r.version == target
      · simp only [List.map_cons, List.filter_cons, switchFun, h1, h2, if_pos]
        simp only [List.count_cons]
        simp [ih, beq_iff_eq.mp h2]
      · simp only [List.map_cons, List.filter_cons, switchFun, h1, h2, if_pos]
        simp only [List.count_cons]
        have : ¬ r.version = target := by simpa using h2
        simp [ih, this]
    · simp only [List.map_cons, List.filter_cons, switchFun, h1]
      simp [ih, h1]

/-- C5: after a successful version switch to a stored `(name, target)` row,
under pairwise-distinct stored versions for the name, exactly one row of the
name is current, and every current row of the name carries the target
version. -/
theorem C5_switch_current_unique (db : DBState) (name target : String)
    (hstored : ∃ r ∈ db.charts, r.name = name ∧ r.version = target)
    (hnodup : ((db.charts.filter (fun r => r.name == name)).map
      (fun r => r.version)).Nodup) :
    ((switchChartVersion db name target).charts.filter
      (fun r => r.name == name && r.isLatest == some true)).length = 1 ∧
    ∀ r ∈ (switchChartVersion db name target).charts,
      r.name = name → r.isLatest = some true → r.version = target := by
  constructor
  · rw [switch_charts_eq, switch_count]
    apply List.count_eq_one_of_mem hnodup
    obtain ⟨r, hr, hname, hver⟩ := hstored
    exact hver ▸ List.mem_map.mpr ⟨r, List.mem_filter.mpr ⟨hr, by simp [hname]⟩, rfl⟩
  · intro r' hr' hname' hlatest'
    rw [switch_charts_eq] at hr'
    obtain ⟨r, _, rfl⟩ := List.mem_map.mp hr'
    by_cases h1 : r.name == name
    · by_cases h2 : r.version == target
      · simpa [switchFun, h1, h2] using beq_iff_eq.mp h2
      · exfalso
        simp [switchFun, h1, h2] at hlatest'
    · exfalso
      simp [switchFun, h1] at hname'
      exact absurd hname' (by simpa using h1)

/-- Concrete two-version catalog used by the store witnesses. -/
def sampleRow : ChartRow :=
  { id := 1, name := "a", version := "1.0.0", description := none,
    type := "application", chartUrl := "u", imageTag := none, canaryTag := none,
    manifest := none, isLatest := some true, ingressPaths := none,
    containerImages := none, servicePorts := none }

def switchSampleDB : DBState :=
  { charts := [sampleRow,
      { sampleRow with id := 2, version := "2.0.0", isLatest := some false }],
    dependencies := [], apps := [],
    nextChartId := 3, nextDependencyId := 1, nextAppId := 1 }

/-- Witness for C5 at the concrete two-version catalog. -/
theorem C5_switch_current_unique_witness :
    ((switchChartVersion switchSampleDB "a" "2.0.0").charts.filter
      (fun r => r.name == "a" && r.isLatest == some true)).length = 1 :=
  (C5_switch_current_unique switchSampleDB "a" "2.0.0" (by decide) (by decide)).1

/-! ## Frame lemmas for the store -/

theorem createDependency_ok_frame {db : DBState} {params : CreateDependencyParams}
    {p : DBState × DependencyRow} (h : createDependency db params = Except.ok p) :
    p.1.charts = db.charts ∧ p.1.apps = db.apps ∧
    p.1.nextChartId = db.nextChartId ∧ p.1.nextAppId = db.nextAppId := by
  rw [createDependency] at h
  split at h
  · exact absurd h (by simp)
  · simp only [Except.ok.injEq] at h
    rw [← h]
    exact ⟨rfl, rfl, rfl, rfl⟩

theorem storeDependencies_frame :
    ∀ (deps : List Dependency) (db : DBState) (cid : Nat),
      (storeDependencies db cid deps).charts = db.charts ∧
      (storeDependencies db cid deps).apps = db.apps ∧
      (storeDependencies db cid deps).nextChartId = db.nextChartId ∧
      (storeDependencies db cid deps).nextAppId = db.nextAppId := by
  intro deps
  induction deps with
  | nil => intro db cid; exact ⟨rfl, rfl, rfl, rfl⟩
  | cons dep rest ih =>
    intro db cid
    rw [storeDependencies, List.foldl_cons]
    cases h : createDependency db
        { chartId := cid, dependencyName := dep.name,
          dependencyVersion := dep.version,
          repository := nullString dep.repository (dep.repository != ""),
          conditionField := nullString dep.condition (dep.condition != "") } with
    | error e => exact ih db cid
    | ok p =>
      have hp := createDependency_ok_frame h
      obtain ⟨h1, h2, h3, h4⟩ := ih p.1 cid
      rw [storeDependencies] at h1 h2 h3 h4
      exact ⟨h1.trans hp.1, h2.trans hp.2.1, h3.trans hp.2.2.1, h4.trans hp.2.2.2⟩

theorem storeApps_frame :
    ∀ (apps : List App) (db : DBState) (cid : Nat),
      (storeApps db cid apps).charts = db.charts ∧
      (storeApps db cid apps).dependencies = db.dependencies ∧
      (storeApps db cid apps).nextChartId = db.nextChartId ∧
      (storeApps db cid apps).nextDependencyId = db.nextDependencyId := by
  intro apps
  induction apps with
  | nil => intro db cid; exact ⟨rfl, rfl, rfl, rfl⟩
  | cons app rest ih =>
    intro db cid
    rw [storeApps, List.foldl_cons]
    obtain ⟨h1, h2, h3, h4⟩ := ih ((createApp db
      { chartId := cid, name := app.name,
        image := nullString app.image (app.image != ""),
        appType := nullString app.type (app.type != ""),
        ports := if app.ports.length > 0 then some app.ports else none,
        configs := if app.configs.length > 0 then some app.configs else none,
        mounts := if app.mounts.length > 0 then some app.mounts else none }).1) cid
    rw [storeApps] at h1 h2 h3 h4
    exact ⟨h1, h2, h3, h4⟩

/-- The dependency rows `storeDependencies` inserts when every insert
succeeds: one row per declared dependency, with consecutive fresh ids. -/
def newDepRows (startId cid : Nat) : List Dependency → List DependencyRow
  | [] => []
  | dep :: rest =>
    { id := startId, chartId := cid, dependencyName := dep.name,
      dependencyVersion := dep.version,
      repository := nullString dep.repository (dep.repository != ""),
      conditionField := nullString dep.condition (dep.condition != "") } ::
      newDepRows (startId + 1) cid rest

theorem newDepRows_chartId (cid : Nat) :
    ∀ (deps : List Dependency) (startId : Nat) (r : DependencyRow),
      r ∈ newDepRows startId cid deps → r.chartId = cid ∧ startId ≤ r.id := by
  intro deps
  induction deps with
  | nil => intro startId r h; simp [newDepRows] at h
  | cons dep rest ih =>
    intro startId r h
    rw [newDepRows] at h
    rcases List.mem_cons.mp h with rfl | h
    · exact ⟨rfl, Nat.le_refl _⟩
    · obtain ⟨h1, h2⟩ := ih (startId + 1) r h
      exact ⟨h1, Nat.le_of_succ_le h2⟩

theorem storeDependencies_eq (cid : Nat) :
    ∀ (deps : List Dependency) (db : DBState),
      (deps.map (fun d => d.name)).Nodup →
      (∀ d ∈ db.dependencies, d.chartId = cid →
        d.dependencyName ∉ deps.map (fun d => d.name)) →
      (storeDependencies db cid deps).dependencies =
        db.dependencies ++ newDepRows db.nextDependencyId cid deps := by
  intro deps
  induction deps with
  | nil => intro db _ _; simp [storeDependencies, newDepRows]
  | cons dep rest ih =>
    intro db hnodup hfree
    have hany : db.dependencies.any
        (fun d => d.chartId == cid && d.dependencyName == dep.name) = false := by
      rw [List.any_eq_false]
      intro d hd
      simp only [Bool.and_eq_true, beq_iff_eq, not_and]
      intro hcid hname
      exact hfree d hd hcid (by simp [hname])
    rw [storeDependencies, List.foldl_cons, createDependency, if_neg (by simp [hany])]
    have hrest := ih { db with
        dependencies := db.dependencies ++
          [{ id := db.nextDependencyId, chartId := cid, dependencyName := dep.name,
             dependencyVersion := dep.version,
             repository := nullString dep.repository (dep.repository != ""),
             conditionField := nullString dep.condition (dep.condition != "") }],
        nextDependencyId := db.nextDependencyId + 1 }
      (by
        rw [List.map_cons] at hnodup
        exact (List.nodup_cons.mp hnodup).2)
      (by
        intro d hd hcid
        rcases List.mem_append.mp hd with hold | hnew
        · have := hfree d hold hcid
          intro hmem
          exact this (by simp [List.mem_cons]; right; simpa using hmem)
        · simp only [List.mem_singleton] at hnew
          subst hnew
          rw [List.map_cons] at hnodup
          simpa using (List.nodup_cons.mp hnodup).1)
    rw [storeDependencies] at hrest
    rw [hrest]
    simp [newDepRows]

/-- Decidable equality of store results, for the concrete evaluations. -/
instance {ε α : Type} [DecidableEq ε] [DecidableEq α] : DecidableEq (Except ε α) :=
  fun a b =>
    match a, b with
    | Except.ok x, Except.ok y =>
      if h : x = y then isTrue (by rw [h]) else isFalse (by simp [h])
    | Except.error e, Except.error f =>
      if h : e = f then isTrue (by rw [h]) else isFalse (by simp [h])
    | Except.ok _, Except.error _ => isFalse (by simp)
    | Except.error _, Except.ok _ => isFalse (by simp)

/-! ## Claim C4: re-fetch replaces the dependency edges of the reused row -/

/-- C4 (amended): fetch-or-update of a name with a stored current row reuses
that row's identity (the returned row is the stored one and the charts table
is untouched, so its id and version are unchanged), deletes all of the row's
pre-existing dependency edges, and inserts one new edge per dependency of the
summary — provided the summary's dependency names are pairwise distinct
(a duplicate name violates the schema's `UNIQUE(chart_id, dependency_name)`
and its insert is skipped).  Stated under the AUTOINCREMENT invariant that
every stored dependency id is below the next id. -/
theorem C4_refetch_replaces_edges (db : DBState) (info : ChartInfo) (apps : List App)
    (url : String) (existing : ChartRow)
    (hex : getChart db info.chart.name = some existing)
    (hnodup : (info.chart.dependencies.map (fun d => d.name)).Nodup)
    (hfresh : ∀ d ∈ db.dependencies, d.id < db.nextDependencyId) :
    ∃ db', storeChartInDB db info apps url = Except.ok (db', existing) ∧
      db'.charts = db.charts ∧
      getChartDependencies db' existing.id =
        newDepRows db.nextDependencyId existing.id info.chart.dependencies ∧
      ∀ d ∈ db.dependencies, d.chartId = existing.id → d ∉ db'.dependencies := by
  have hfree : ∀ d ∈ (deleteChartDependencies db existing.id).dependencies,
      d.chartId = existing.id →
      d.dependencyName ∉ info.chart.dependencies.map (fun d => d.name) := by
    intro d hd hcid
    have hpred := (List.mem_filter.mp hd).2
    simp only [Bool.not_eq_eq_eq_not, Bool.not_true, beq_eq_false_iff_ne] at hpred
    exact absurd hcid hpred
  have hsd := storeDependencies_eq existing.id info.chart.dependencies
    (deleteChartDependencies db existing.id) hnodup hfree
  have hsf := storeDependencies_frame info.chart.dependencies
    (deleteChartDependencies db existing.id) existing.id
  have haf := storeApps_frame apps
    (storeDependencies (deleteChartDependencies db existing.id) existing.id
      info.chart.dependencies) existing.id
  refine ⟨storeApps (storeDependencies (deleteChartDependencies db existing.id)
      existing.id info.chart.dependencies) existing.id apps,
    by simp only [storeChartInDB, hex], ?_, ?_, ?_⟩
  · rw [haf.1, hsf.1]
    rfl
  · rw [getChartDependencies, haf.2.1, hsd]
    have hold : ((deleteChartDependencies db existing.id).dependencies.filter
        (fun d => d.chartId == existing.id)) = [] := by
      rw [List.filter_eq_nil_iff]
      intro d hd
      have hpred := (List.mem_filter.mp hd).2
      simp only [Bool.not_eq_eq_eq_not, Bool.not_true, beq_eq_false_iff_ne] at hpred
      simpa using hpred
    have hnew : ((newDepRows (deleteChartDependencies db existing.id).nextDependencyId
        existing.id info.chart.dependencies).filter
        (fun d => d.chartId == existing.id)) =
        newDepRows (deleteChartDependencies db existing.id).nextDependencyId
          existing.id info.chart.dependencies := by
      rw [List.filter_eq_self]
      intro r hr
      simpa using (newDepRows_chartId existing.id info.chart.dependencies _ r hr).1
    rw [List.filter_append, hold, hnew]
    rfl
  · intro d hd hcid hmem
    rw [haf.2.1, hsd] at hmem
    rcases List.mem_append.mp hmem with hold | hnew
    · have hpred := (List.mem_filter.mp hold).2
      simp only [Bool.not_eq_eq_eq_not, Bool.not_true, beq_eq_false_iff_ne] at hpred
      exact hpred hcid
    · have := (newDepRows_chartId existing.id info.chart.dependencies _ d hnew).2
      have hlt := hfresh d hd
      have : db.nextDependencyId ≤ d.id := this
      omega

/-- Summary that declares the same dependency name twice. -/
def dupDepInfo : ChartInfo :=
  { chart :=
      { name := "a", version := "1.0.0", description := "",
        type := "application",
        dependencies :=
          [{ name := "d", version := "1", repository := "", condition := "" },
           { name := "d", version := "2", repository := "", condition := "" }] },
    imageTag := "N/A", canaryTag := "N/A", manifestMetadata := none }

/-- Catalog with chart `a` stored as current and no children. -/
def refetchBaseDB : DBState :=
  { charts := [sampleRow], dependencies := [], apps := [],
    nextChartId := 2, nextDependencyId := 1, nextAppId := 1 }

/-- Result state of re-fetching `a` with the duplicate-name summary. -/
def dupDepResultDB : DBState :=
  { charts := [sampleRow],
    dependencies :=
      [{ id := 1, chartId := 1, dependencyName := "d",
         dependencyVersion := "1", repository := none, conditionField := none }],
    apps := [], nextChartId := 2, nextDependencyId := 2, nextAppId := 1 }

/-- Counterexample to C4 as stated: a summary with two dependencies of the
same name yields only one stored edge (the second insert violates
`UNIQUE(chart_id, dependency_name)` and is skipped), so "one new edge per
dependency in the summary" fails. -/
theorem C4_counterexample :
    storeChartInDB refetchBaseDB dupDepInfo [] "u" =
      Except.ok (dupDepResultDB, sampleRow) ∧
    dupDepInfo.chart.dependencies.length = 2 ∧
    (getChartDependencies dupDepResultDB sampleRow.id).length = 1 := by
  decide

/-- Summary with a single declared dependency. -/
def singleDepInfo : ChartInfo :=
  { chart :=
      { name := "a", version := "1.0.0", description := "",
        type := "application",
        dependencies :=
          [{ name := "d", version := "1", repository := "", condition := "" }] },
    imageTag := "N/A", canaryTag := "N/A", manifestMetadata := none }

/-- Witness for the amended C4 at a concrete one-dependency re-fetch. -/
theorem C4_refetch_replaces_edges_witness :
    ∃ db', storeChartInDB refetchBaseDB singleDepInfo [] "u" =
        Except.ok (db', sampleRow) ∧
      db'.charts = refetchBaseDB.charts ∧
      getChartDependencies db' sampleRow.id =
        newDepRows refetchBaseDB.nextDependencyId sampleRow.id
          singleDepInfo.chart.dependencies ∧
      ∀ d ∈ refetchBaseDB.dependencies, d.chartId = sampleRow.id →
        d ∉ db'.dependencies :=
  C4_refetch_replaces_edges refetchBaseDB singleDepInfo [] "u" sampleRow
    (by rfl) (by simp [singleDepInfo]) (by simp [refetchBaseDB])

/-! ## Claim C1: application records on re-fetch (code bug) -/

def oldAppRow : AppRow :=
  { id := 1, chartId := 1, name := "oldapp", image := some "old:1",
    appType := none, ports := none, configs := none, mounts := none }

/-- Catalog with chart `a` stored as current and one application row from the
previous fetch. -/
def refetchAppsDB : DBState :=
  { charts := [sampleRow], dependencies := [], apps := [oldAppRow],
    nextChartId := 2, nextDependencyId := 1, nextAppId := 2 }

def plainInfo : ChartInfo :=
  { chart :=
      { name := "a", version := "1.0.0", description := "",
        type := "application", dependencies := [] },
    imageTag := "N/A", canaryTag := "N/A", manifestMetadata := none }

def newFetchedApp : App :=
  { name := "newapp", image := "new:2", type := "", ports := [],
    configs := [], mounts := [] }

/-- Result state of re-fetching `a` with one new application. -/
def refetchAppsResultDB : DBState :=
  { charts := [sampleRow], dependencies := [],
    apps :=
      [oldAppRow,
       { id := 2, chartId := 1, name := "newapp", image := some "new:2",
         appType := none, ports := none, configs := none, mounts := none }],
    nextChartId := 2, nextDependencyId := 1, nextAppId := 3 }

/-- C1 fails on the code: re-fetching a stored bundle never deletes its old
application rows (the `DeleteChartApps` query exists but is never called), so
after a successful re-fetch the old application row is still queryable for
the reused chart id alongside the new one. -/
theorem C1_old_app_rows_remain :
    storeChartInDB refetchAppsDB plainInfo [newFetchedApp] "u" =
      Except.ok (refetchAppsResultDB, sampleRow) ∧
    oldAppRow ∈ refetchAppsDB.apps ∧
    oldAppRow ∈ getChartApps refetchAppsResultDB sampleRow.id := by
  decide

/-! ## The create branch of the store (claims C10 and C2) -/

/-- The row the create branch inserts. -/
def createdRow (db : DBState) (info : ChartInfo) (url : String) : ChartRow :=
  { id := db.nextChartId, name := info.chart.name, version := info.chart.version,
    description := nullString info.chart.description (info.chart.description != ""),
    type := info.chart.type, chartUrl := url,
    imageTag := nullString info.imageTag (info.imageTag != "N/A"),
    canaryTag := nullString info.canaryTag (info.canaryTag != "N/A"),
    manifest := nullString "" false, isLatest := some true,
    ingressPaths := none, containerImages := none, servicePorts := none }

theorem updateChartManifestMetadata_charts (db : DBState) (cid : Nat)
    (m : ManifestMetadata) :
    (updateChartManifestMetadata db cid m).charts = db.charts.map fun r =>
      if r.id == cid then
        { r with ingressPaths := some m.ingressPaths,
                 containerImages := some m.containerImages,
                 servicePorts := some m.servicePorts }
      else r := rfl

/-- The store state right after the create branch's insert. -/
def createdDB (db : DBState) (info : ChartInfo) (url : String) : DBState :=
  { db with
      charts := db.charts ++ [createdRow db info url],
      nextChartId := db.nextChartId + 1 }

/-- When `getChart` finds no current row for the summary's name and no stored
row collides on `(name, version)`, `storeChartInDB` takes the create branch:
it succeeds, returns a brand-new row with a fresh id, the given url and
`isLatest = some true`, and appends exactly one chart row (the new row, with
its manifest metadata columns possibly filled in) after the untouched old
rows. -/
theorem storeChartInDB_create_branch (db : DBState) (info : ChartInfo)
    (apps : List App) (url : String)
    (hnone : getChart db info.chart.name = none)
    (hver : ∀ r ∈ db.charts, r.name = info.chart.name →
      r.version ≠ info.chart.version)
    (hfresh : ∀ r ∈ db.charts, r.id < db.nextChartId) :
    ∃ db' urow, storeChartInDB db info apps url =
        Except.ok (db', createdRow db info url) ∧
      db'.charts = db.charts ++ [urow] ∧
      urow.id = db.nextChartId ∧ urow.name = info.chart.name ∧
      urow.version = info.chart.version ∧ urow.chartUrl = url ∧
      urow.isLatest = some true := by
  have hany : db.charts.any
      (fun r => r.name == info.chart.name && r.version == info.chart.version) = false := by
    rw [List.any_eq_false]
    intro r hr
    simp only [Bool.and_eq_true, beq_iff_eq, not_and]
    exact fun h1 h2 => hver r hr h1 h2
  have hcreate : createChart db
      { name := info.chart.name, version := info.chart.version,
        description := nullString info.chart.description (info.chart.description != ""),
        type := info.chart.type, chartUrl := url,
        imageTag := nullString info.imageTag (info.imageTag != "N/A"),
        canaryTag := nullString info.canaryTag (info.canaryTag != "N/A"),
        manifest := nullString "" false, isLatest := some true } =
      Except.ok (createdDB db info url, createdRow db info url) := by
    rw [createChart, if_neg (by simp [hany])]
    rfl
  cases hmeta : info.manifestMetadata with
  | none =>
    have heq : storeChartInDB db info apps url =
        Except.ok (storeApps (storeDependencies (createdDB db info url)
          (createdRow db info url).id info.chart.dependencies)
          (createdRow db info url).id apps, createdRow db info url) := by
      simp only [storeChartInDB, hnone, hcreate, hmeta]
    refine ⟨_, createdRow db info url, heq, ?_, rfl, rfl, rfl, rfl, rfl⟩
    have hsf := storeDependencies_frame info.chart.dependencies
      (createdDB db info url) (createdRow db info url).id
    have haf := storeApps_frame apps
      (storeDependencies (createdDB db info url) (createdRow db info url).id
        info.chart.dependencies) (createdRow db info url).id
    rw [haf.1, hsf.1]
    rfl
  | some m =>
    have heq : storeChartInDB db info apps url =
        Except.ok (storeApps (storeDependencies
          (updateChartManifestMetadata (createdDB db info url)
            (createdRow db info url).id m)
          (createdRow db info url).id info.chart.dependencies)
          (createdRow db info url).id apps, createdRow db info url) := by
      simp only [storeChartInDB, hnone, hcreate, hmeta]
    refine ⟨_,
      { createdRow db info url with
          ingressPaths := some m.ingressPaths,
          containerImages := some m.containerImages,
          servicePorts := some m.servicePorts },
      heq, ?_, rfl, rfl, rfl, rfl, rfl⟩
    have hsf := storeDependencies_frame info.chart.dependencies
      (updateChartManifestMetadata (createdDB db info url)
        (createdRow db info url).id m) (createdRow db info url).id
    have haf := storeApps_frame apps
      (storeDependencies (updateChartManifestMetadata (createdDB db info url)
        (createdRow db info url).id m) (createdRow db info url).id
        info.chart.dependencies) (createdRow db info url).id
    rw [haf.1, hsf.1, updateChartManifestMetadata_charts]
    show (db.charts ++ [createdRow db info url]).map _ = _
    rw [List.map_append]
    congr 1
    · have hmap : (db.charts.map fun r =>
          if r.id == (createdRow db info url).id then
            { r with ingressPaths := some m.ingressPaths,
                     containerImages := some m.containerImages,
                     servicePorts := some m.servicePorts }
          else r) = db.charts.map id := by
        apply List.map_congr_left
        intro r hr
        have hne : ¬ (r.id == (createdRow db info url).id) = true := by
          simp only [beq_iff_eq, createdRow]
          exact Nat.ne_of_lt (hfresh r hr)
        rw [if_neg hne]
        rfl
      rw [hmap, List.map_id]
    · simp

/-! ## Claim C10: the name-only, current-only existence check -/

/-- C10 (amended): when a name has stored rows but none is current, the
`GetChart` check (which matches only `is_latest = TRUE` rows) finds nothing,
so fetch-or-update takes the create branch and inserts a brand-new current
row, leaving the old rows untouched — provided the summary's version differs
from every stored version of the name (an equal version violates the schema's
`UNIQUE(name, version)` and makes the whole operation fail instead).  Stated
under the AUTOINCREMENT invariant that stored chart ids are below the next
id. -/
theorem C10_create_when_no_current (db : DBState) (info : ChartInfo)
    (apps : List App) (url : String)
    (hnc : ∀ r ∈ db.charts, r.name = info.chart.name → r.isLatest ≠ some true)
    (_hsome : ∃ r ∈ db.charts, r.name = info.chart.name)
    (hver : ∀ r ∈ db.charts, r.name = info.chart.name →
      r.version ≠ info.chart.version)
    (hfresh : ∀ r ∈ db.charts, r.id < db.nextChartId) :
    ∃ db' urow, storeChartInDB db info apps url =
        Except.ok (db', createdRow db info url) ∧
      (createdRow db info url).id = db.nextChartId ∧
      (createdRow db info url).isLatest = some true ∧
      db'.charts = db.charts ++ [urow] ∧
      urow.id = db.nextChartId ∧ urow.name = info.chart.name ∧
      urow.isLatest = some true := by
  have hnone : getChart db info.chart.name = none := by
    rw [getChart, List.find?_eq_none]
    intro r hr
    simp only [Bool.and_eq_true, beq_iff_eq, not_and]
    intro h1 h2
    exact hnc r hr h1 h2
  obtain ⟨db', urow, heq, hch, h1, h2, h3, h4, h5⟩ :=
    storeChartInDB_create_branch db info apps url hnone hver hfresh
  exact ⟨db', urow, heq, rfl, rfl, hch, h1, h2, h5⟩

/-- Catalog where name `a` is stored once, as a non-current row. -/
def noCurrentDB : DBState :=
  { charts := [{ sampleRow with isLatest := some false }],
    dependencies := [], apps := [],
    nextChartId := 2, nextDependencyId := 1, nextAppId := 1 }

/-- Counterexample to C10 as stated: when the fetched summary's version
equals a stored (non-current) version of the name, the create branch's insert
violates `UNIQUE(name, version)` and the operation fails — no brand-new
current row is inserted. -/
theorem C10_counterexample :
    (∀ r ∈ noCurrentDB.charts, r.name = plainInfo.chart.name →
      r.isLatest ≠ some true) ∧
    (∃ r ∈ noCurrentDB.charts, r.name = plainInfo.chart.name) ∧
    storeChartInDB noCurrentDB plainInfo [] "u2" =
      Except.error
        "failed to create chart: UNIQUE constraint failed: charts.name, charts.version" := by
  decide

/-- Summary for a fresh version `3.0.0` of name `a`. -/
def newVersionInfo : ChartInfo :=
  { chart :=
      { name := "a", version := "3.0.0", description := "",
        type := "application", dependencies := [] },
    imageTag := "N/A", canaryTag := "N/A", manifestMetadata := none }

/-- Witness for the amended C10 at the concrete no-current catalog. -/
theorem C10_create_when_no_current_witness :
    ∃ db' urow, storeChartInDB noCurrentDB newVersionInfo [] "u2" =
        Except.ok (db', createdRow noCurrentDB newVersionInfo "u2") ∧
      (createdRow noCurrentDB newVersionInfo "u2").id = noCurrentDB.nextChartId ∧
      (createdRow noCurrentDB newVersionInfo "u2").isLatest = some true ∧
      db'.charts = noCurrentDB.charts ++ [urow] ∧
      urow.id = noCurrentDB.nextChartId ∧ urow.name = newVersionInfo.chart.name ∧
      urow.isLatest = some true :=
  C10_create_when_no_current noCurrentDB newVersionInfo [] "u2"
    (by decide) (by decide) (by decide) (by decide)

/-! ## Claims C2 and C6: the dependency resolver -/

theorem tryCandidates_fst_none (fetch : String → Except String ChartInfo) :
    ∀ l : List String, (∀ url ∈ l, ∃ e, fetch url = Except.error e) →
      (tryCandidates fetch l).1 = none := by
  intro l
  induction l with
  | nil => intro _; rfl
  | cons url rest ih =>
    intro h
    obtain ⟨e, he⟩ := h url (by simp)
    rw [tryCandidates, he]
    cases rest with
    | nil => rfl
    | cons a as => exact ih fun u hu => h u (by simp [hu])

/-- C6: for a dependency edge whose name is not yet stored and whose every
candidate location fails, the resolver leaves the catalog and the
newly-fetched list unchanged, appends exactly one error entry whose text
contains the dependency's name, and resolution continues with the remaining
edges from that same accumulated state. -/
theorem C6_allfail_error_and_continue (fetch : String → Except String ChartInfo)
    (st : ResolveState) (dep : FetchDepRow) (rest : List FetchDepRow)
    (hnot : getChart st.db dep.dependencyName = none)
    (hfail : ∀ url ∈ candidateLocations dep, ∃ e, fetch url = Except.error e) :
    processDep fetch st dep =
      { db := st.db, fetched := st.fetched, errors := st.errors ++
          ["Failed to fetch " ++ dep.dependencyName ++ " from any registry: " ++
            errText (tryCandidates fetch (candidateLocations dep)).2] } ∧
    dep.dependencyName.data <:+:
      ("Failed to fetch " ++ dep.dependencyName ++ " from any registry: " ++
        errText (tryCandidates fetch (candidateLocations dep)).2).data ∧
    List.foldl (processDep fetch) st (dep :: rest) =
      List.foldl (processDep fetch)
        { db := st.db, fetched := st.fetched, errors := st.errors ++
            ["Failed to fetch " ++ dep.dependencyName ++ " from any registry: " ++
              errText (tryCandidates fetch (candidateLocations dep)).2] } rest := by
  have hfst := tryCandidates_fst_none fetch (candidateLocations dep) hfail
  have hpair : tryCandidates fetch (candidateLocations dep) =
      (none, (tryCandidates fetch (candidateLocations dep)).2) := by
    cases htc : tryCandidates fetch (candidateLocations dep) with
    | mk a b =>
      rw [htc] at hfst
      simp only at hfst
      rw [hfst]
  have hstep : processDep fetch st dep =
      { db := st.db, fetched := st.fetched, errors := st.errors ++
          ["Failed to fetch " ++ dep.dependencyName ++ " from any registry: " ++
            errText (tryCandidates fetch (candidateLocations dep)).2] } := by
    simp only [processDep, hnot]
    rw [hpair]
  refine ⟨hstep, ?_, ?_⟩
  · exact ⟨("Failed to fetch ").data,
      (" from any registry: " ++
        errText (tryCandidates fetch (candidateLocations dep)).2).data,
      by simp [String.data_append, List.append_assoc]⟩
  · rw [List.foldl_cons, hstep]

/-- Empty catalog used by the resolver witnesses. -/
def emptyDB : DBState :=
  { charts := [], dependencies := [], apps := [],
    nextChartId := 1, nextDependencyId := 1, nextAppId := 1 }

/-- Dependency edge on `x` with a repository hint. -/
def resolveDep : FetchDepRow :=
  { dependencyName := "x", dependencyVersion := "2.0.0",
    repository := some "oci://myrepo/x" }

/-- Fetch oracle on which every location fails. -/
def allFailFetch : String → Except String ChartInfo :=
  fun url => Except.error ("boom " ++ url)

/-- Witness for C6 at a concrete edge whose every candidate fails. -/
theorem C6_allfail_error_and_continue_witness :
    processDep allFailFetch { db := emptyDB, fetched := [], errors := [] } resolveDep =
      { db := emptyDB, fetched := [], errors :=
          ["Failed to fetch " ++ resolveDep.dependencyName ++
            " from any registry: " ++
            errText (tryCandidates allFailFetch (candidateLocations resolveDep)).2] } :=
  (C6_allfail_error_and_continue allFailFetch
    { db := emptyDB, fetched := [], errors := [] } resolveDep [] (by rfl)
    (fun url _ => ⟨"boom " ++ url, rfl⟩)).1

/-- C2 (amended): when an unresolved dependency is fetched successfully from
some candidate, the resolver stores the summary with the FIRST entry of the
candidate list (`registries[0]` — the repository hint when present, else the
first hard-coded registry) as the stored `chart_url`, regardless of which
candidate actually succeeded.  The claim as stated holds only when the
successful candidate sits at position 0. -/
theorem C2_store_uses_first_candidate (fetch : String → Except String ChartInfo)
    (st : ResolveState) (dep : FetchDepRow) (info : ChartInfo)
    (hnot : getChart st.db dep.dependencyName = none)
    (hsucc : tryCandidates fetch (candidateLocations dep) = (some info, none))
    (hnew : getChart st.db info.chart.name = none)
    (hver : ∀ r ∈ st.db.charts, r.name = info.chart.name →
      r.version ≠ info.chart.version)
    (hfresh : ∀ r ∈ st.db.charts, r.id < st.db.nextChartId) :
    ∃ db' urow, processDep fetch st dep =
        { db := db', fetched := st.fetched ++ [info], errors := st.errors } ∧
      db'.charts = st.db.charts ++ [urow] ∧
      urow.chartUrl = (candidateLocations dep).headD "" ∧
      urow.name = info.chart.name := by
  obtain ⟨db', urow, heq, hch, hid, hname, hverr, hurl, hlatest⟩ :=
    storeChartInDB_create_branch st.db info [] ((candidateLocations dep).headD "")
      hnew hver hfresh
  refine ⟨db', urow, ?_, hch, hurl, hname⟩
  simp only [processDep, hnot, hsucc, heq]

/-- Summary of chart `x` as fetched by the resolver witnesses. -/
def fetchedInfo : ChartInfo :=
  { chart :=
      { name := "x", version := "2.0.0", description := "",
        type := "application", dependencies := [] },
    imageTag := "N/A", canaryTag := "N/A", manifestMetadata := none }

/-- Fetch oracle where the repository hint fails and the first hard-coded
registry succeeds. -/
def hintFailFetch : String → Except String ChartInfo :=
  fun url =>
    if url == "oci://registry-1.docker.io/bitnamicharts/x" then Except.ok fetchedInfo
    else Except.error ("no such chart at " ++ url)

/-- Counterexample to C2 as stated: the repository hint (position 0) fails
and the first hard-coded registry (position 1) succeeds, yet the stored
`chart_url` is the failed hint, not the successful candidate. -/
theorem C2_counterexample :
    (fetchChartDependenciesAdvanced hintFailFetch emptyDB [resolveDep]).db.charts.map
      (fun r => r.chartUrl) = ["oci://myrepo/x"] ∧
    (fetchChartDependenciesAdvanced hintFailFetch emptyDB [resolveDep]).fetched =
      [fetchedInfo] ∧
    hintFailFetch "oci://myrepo/x" =
      Except.error "no such chart at oci://myrepo/x" ∧
    hintFailFetch "oci://registry-1.docker.io/bitnamicharts/x" =
      Except.ok fetchedInfo ∧
    "oci://myrepo/x" ≠ "oci://registry-1.docker.io/bitnamicharts/x" := by
  decide

/-- Witness for the amended C2 at the concrete hint-fails scenario. -/
theorem C2_store_uses_first_candidate_witness :
    ∃ db' urow, processDep hintFailFetch
        { db := emptyDB, fetched := [], errors := [] } resolveDep =
        { db := db', fetched := [] ++ [fetchedInfo], errors := [] } ∧
      db'.charts = emptyDB.charts ++ [urow] ∧
      urow.chartUrl = (candidateLocations resolveDep).headD "" ∧
      urow.name = fetchedInfo.chart.name :=
  C2_store_uses_first_candidate hintFailFetch
    { db := emptyDB, fetched := [], errors := [] } resolveDep fetchedInfo
    (by rfl) (by rfl) (by rfl) (by simp [emptyDB]) (by simp [emptyDB])

end ChartPaper
